/-
Verification of the render gate (`shouldUpdate`), the mount effect of the
`Map` component, and the `ModalBehind` styled component from the blog
repository (src/components/Modal/styles.js and the embedded Map component).

The embedding models JavaScript values as a mutual inductive family:
objects are ordered association lists of string keys (JS insertion order),
arrays are sequences, and a function value carries its source text (what
`Function.prototype.toString` returns) together with a closure identity
`ref : Nat` standing for the function object's reference; two distinct
closures (possibly over different captured values) have distinct `ref`s
even when their source text coincides.  Property sets (React props
objects) are `JSFields`.  Fallible JavaScript operations (`delete` on an
`undefined`/`null` base, calling `.toString()` on `undefined`/`null`)
return `Except JSError`.  Mutation (the single `delete
prevProps.options.mapTypeId` the code performs) is embedded by explicit
state passing: `shouldUpdate` returns the post-call state of its first
argument next to the boolean/exception outcome.  Per the spec's data
model, property sets are produced fresh on every render, so distinct
arguments never alias.
-/
import Mathlib

namespace Blog

/-- The only runtime error class this code can raise. -/
inductive JSError : Type where
  | typeError : JSError
deriving DecidableEq, Repr

mutual
/-- A JavaScript value as used by the component under verification. -/
inductive JSVal : Type where
  | str : String → JSVal
  | num : Int → JSVal
  | boolean : Bool → JSVal
  | null : JSVal
  | obj : JSFields → JSVal
  | arr : JSArr → JSVal
  /-- A function value: source text (as returned by `toString`) and a
      closure identity standing for the function object's reference. -/
  | func : String → Nat → JSVal

/-- A JavaScript array. -/
inductive JSArr : Type where
  | nil : JSArr
  | cons : JSVal → JSArr → JSArr

/-- The own enumerable properties of a JavaScript object, in insertion
    order.  JS objects never hold two properties with the same name. -/
inductive JSFields : Type where
  | nil : JSFields
  | cons : String → JSVal → JSFields → JSFields
end

deriving instance DecidableEq for JSVal, JSArr, JSFields

/-- A `PropertySet` (the spec's name for a React props object). -/
abbrev PropertySet : Type := JSFields

/-- Property access `ps[key]`: the value of the first (only) binding of
    `key`, `none` when the property is absent (JS `undefined`). -/
def getField : JSFields → String → Option JSVal
  | JSFields.nil, _ => none
  | JSFields.cons k v rest, key => if k = key then some v else getField rest key

/-- `delete obj[key]`: remove the binding of `key` (all of them; JS
    objects have at most one). -/
def removeField : JSFields → String → JSFields
  | JSFields.nil, _ => JSFields.nil
  | JSFields.cons k v rest, key =>
      if k = key then removeField rest key
      else JSFields.cons k v (removeField rest key)

/-- Assignment to an existing property: replace the value of the first
    binding of `key`, keeping its position (JS keeps insertion order). -/
def setField : JSFields → String → JSVal → JSFields
  | JSFields.nil, _, _ => JSFields.nil
  | JSFields.cons k v rest, key, w =>
      if k = key then JSFields.cons k w rest
      else JSFields.cons k v (setField rest key w)

/-- Assignment to a fresh property: JS appends it in insertion order. -/
def appendField : JSFields → String → JSVal → JSFields
  | JSFields.nil, key, w => JSFields.cons key w JSFields.nil
  | JSFields.cons k v rest, key, w => JSFields.cons k v (appendField rest key w)

/-- The property names of an object, in order. -/
def keysF : JSFields → List String
  | JSFields.nil => []
  | JSFields.cons k _ rest => k :: keysF rest

/-- Membership test on a list of property names (JS `includes`). -/
def hasName : List String → String → Bool
  | [], _ => false
  | k :: rest, key => k = key || hasName rest key

/-- All names in the list are pairwise distinct. -/
def distinctList : List String → Bool
  | [] => true
  | k :: rest => !hasName rest k && distinctList rest

/-- A JS object's keys are pairwise distinct. -/
def distinctKeys (ps : JSFields) : Bool := distinctList (keysF ps)

/-- `typeof v === "function"`. -/
def isCallable : JSVal → Bool
  | JSVal.func _ _ => true
  | _ => false

/-- Number of fields of an object. -/
def lenF : JSFields → Nat
  | JSFields.nil => 0
  | JSFields.cons _ _ rest => lenF rest + 1

mutual
/-- lodash `isEqual`: deep structural equality.  Objects compare their
    own enumerable properties key-order-independently; arrays compare
    element-wise; functions compare by reference. -/
def isEqual : JSVal → JSVal → Bool
  | JSVal.str a, JSVal.str b => a = b
  | JSVal.num a, JSVal.num b => a = b
  | JSVal.boolean a, JSVal.boolean b => a = b
  | JSVal.null, JSVal.null => true
  | JSVal.obj a, JSVal.obj b => lenF a = lenF b && isEqualFields a b
  | JSVal.arr a, JSVal.arr b => isEqualArr a b
  | JSVal.func _ ra, JSVal.func _ rb => ra = rb
  | _, _ => false

/-- Element-wise deep equality of arrays. -/
def isEqualArr : JSArr → JSArr → Bool
  | JSArr.nil, JSArr.nil => true
  | JSArr.cons a as, JSArr.cons b bs => isEqual a b && isEqualArr as bs
  | _, _ => false

/-- Every field of the first object is present in the second with a
    deep-equal value (with the length check in `isEqual` this makes the
    key sets coincide). -/
def isEqualFields : JSFields → JSFields → Bool
  | JSFields.nil, _ => true
  | JSFields.cons k v rest, b =>
      (match getField b k with
       | some w => isEqual v w
       | none => false) && isEqualFields rest b
end

mutual
/-- JS string conversion `String(v)` for the values of this model
    (only ever reached on non-`null` values). -/
def jsStr : JSVal → String
  | JSVal.str s => s
  | JSVal.num n => toString n
  | JSVal.boolean b => cond b "true" "false"
  | JSVal.null => "null"
  | JSVal.obj _ => "[object Object]"
  | JSVal.arr l => jsStrArr l
  | JSVal.func s _ => s

/-- `Array.prototype.toString` joins elements with `,`, rendering
    `null`/`undefined` elements as the empty string. -/
def jsStrArr : JSArr → String
  | JSArr.nil => ""
  | JSArr.cons v JSArr.nil => jsStrElem v
  | JSArr.cons v (JSArr.cons w rest) =>
      jsStrElem v ++ "," ++ jsStrArr (JSArr.cons w rest)

/-- One array element inside a join. -/
def jsStrElem : JSVal → String
  | JSVal.null => ""
  | v => jsStr v
end

/-- The method call `v.toString()`: a `TypeError` on `null` (and the
    caller maps an absent property, i.e. `undefined`, to the same
    error), the string form otherwise. -/
def jsToStrMethod : JSVal → Except JSError String
  | JSVal.null => Except.error JSError.typeError
  | v => Except.ok (jsStr v)

/-- lodash `functions(obj)`: the names of the own enumerable
    function-valued properties, in insertion order. -/
def functions : JSFields → List String
  | JSFields.nil => []
  | JSFields.cons k v rest =>
      if isCallable v then k :: functions rest else functions rest

/-- lodash `omit(obj, keys)`: a copy of `obj` without the named keys. -/
def omitF : JSFields → List String → JSFields
  | JSFields.nil, _ => JSFields.nil
  | JSFields.cons k v rest, ks =>
      if hasName ks k then omitF rest ks
      else JSFields.cons k v (omitF rest ks)

/-- `prevFuncs.every(fn => prevProps[fn].toString() ===
    nextProps[fn].toString())`: left to right, short-circuiting on the
    first mismatch; accessing `toString` of an absent (`undefined`)
    property raises a `TypeError`. -/
def everyToStringEq (prev next : JSFields) : List String → Except JSError Bool
  | [] => Except.ok true
  | fn :: rest =>
      match getField prev fn with
      | none => Except.error JSError.typeError
      | some v =>
          match jsToStrMethod v with
          | Except.error e => Except.error e
          | Except.ok a =>
              match getField next fn with
              | none => Except.error JSError.typeError
              | some w =>
                  match jsToStrMethod w with
                  | Except.error e => Except.error e
                  | Except.ok b =>
                      if a = b then everyToStringEq prev next rest
                      else Except.ok false

/-- The effect of `delete prevProps.options.mapTypeId` on `prevProps`
    when it does not throw: when `options` is an object the `mapTypeId`
    field is removed from it in place; on any other non-`null` present
    value the delete acts on a temporary wrapper and `prevProps` is
    untouched. -/
def applyTypeTagDeletion (prev : JSFields) : JSFields :=
  match getField prev "options" with
  | some (JSVal.obj fs) =>
      setField prev "options" (JSVal.obj (removeField fs "mapTypeId"))
  | _ => prev

/-- The body of `shouldUpdate` after the `delete` line:
    `isEqual(omit(prevProps, prevFuncs), omit(nextProps, nextFuncs)) &&
    prevFuncs.every(...)`, with `&&` short-circuiting so the `every`
    runs only when the deep comparison succeeded. -/
def gateAfterDelete (prev next : JSFields) : Except JSError Bool :=
  if isEqual (JSVal.obj (omitF prev (functions prev)))
             (JSVal.obj (omitF next (functions next)))
  then everyToStringEq prev next (functions prev)
  else Except.ok false

/-- `shouldUpdate(prevProps, nextProps)` from the Map component.  The
    first line `delete prevProps.options.mapTypeId` throws a `TypeError`
    when `prevProps.options` is `undefined` (absent) or `null`
    (`ToObject` failure); otherwise the deletion is applied and the
    comparison body runs.  The returned `JSFields` is the state of
    `prevProps` after the call (the only mutation the code performs). -/
def shouldUpdate (prevProps nextProps : JSFields) :
    JSFields × Except JSError Bool :=
  match getField prevProps "options" with
  | none => (prevProps, Except.error JSError.typeError)
  | some JSVal.null => (prevProps, Except.error JSError.typeError)
  | some _ =>
      let prev := applyTypeTagDeletion prevProps
      (prev, gateAfterDelete prev nextProps)

/-- Spec-side partition: the non-callable properties of a property set
    ("deep equality of all non-callable properties"). -/
def nonCallables : JSFields → JSFields
  | JSFields.nil => JSFields.nil
  | JSFields.cons k v rest =>
      if isCallable v then nonCallables rest
      else JSFields.cons k v (nonCallables rest)

/-- Spec-side: "every callable property name appearing in `previous`". -/
def callableNames : JSFields → List String
  | JSFields.nil => []
  | JSFields.cons k v rest =>
      if isCallable v then k :: callableNames rest else callableNames rest

/-- Spec-side: "the source-text representation of previous's function
    equals that of next's function under the same name". -/
def funcTextMatches (prev next : JSFields) (fn : String) : Bool :=
  match getField prev fn, getField next fn with
  | some (JSVal.func s _), some (JSVal.func t _) => s = t
  | _, _ => false

/-- The claim C1's reading of the gate, built from the spec's words with
    no `mapTypeId` deletion: the logical AND of (a) deep equality of the
    two non-callable partitions and (b) textual equality of every
    callable of `previous` against `next`'s same-named function. -/
def renderGateClaimed (prev next : JSFields) : Bool :=
  isEqual (JSVal.obj (nonCallables prev)) (JSVal.obj (nonCallables next)) &&
  (callableNames prev).all (funcTextMatches prev next)

/-- The amended spec-side gate: the same AND, taken after the documented
    deletion of `options.mapTypeId` from `previous`. -/
def renderGateSpec (prev next : JSFields) : Bool :=
  renderGateClaimed (applyTypeTagDeletion prev) next

mutual
/-- Well-formedness of a JS value: every object in it has pairwise
    distinct keys (true of every real JS object). -/
def wfVal : JSVal → Bool
  | JSVal.obj fs => distinctKeys fs && wfFields fs
  | JSVal.arr l => wfArr l
  | _ => true

/-- All values of an array are well-formed. -/
def wfArr : JSArr → Bool
  | JSArr.nil => true
  | JSArr.cons v rest => wfVal v && wfArr rest

/-- All values of an object are well-formed. -/
def wfFields : JSFields → Bool
  | JSFields.nil => true
  | JSFields.cons _ v rest => wfVal v && wfFields rest
end

/-- A property set as a real JS props object: distinct keys, and every
    nested object well-formed. -/
def wfProps (ps : JSFields) : Bool := distinctKeys ps && wfFields ps

/-- The fields of an object as a list of pairs, for membership talk. -/
def toListF : JSFields → List (String × JSVal)
  | JSFields.nil => []
  | JSFields.cons k v rest => (k, v) :: toListF rest

/-! ### Basic lemmas about the field operations -/

/-- Structural induction for `JSFields` alone: the mutual family's
    recursor has several motives, but the field-level lemmas never
    recurse into the stored values. -/
@[induction_eliminator]
theorem JSFields.fieldsInduction {motive : JSFields → Prop}
    (nil : motive JSFields.nil)
    (cons : ∀ k v rest, motive rest → motive (JSFields.cons k v rest)) :
    ∀ ps, motive ps
  | JSFields.nil => nil
  | JSFields.cons k v rest => cons k v rest (fieldsInduction nil cons rest)

/-- Structural induction for `JSArr` alone. -/
theorem JSArr.arrInduction {motive : JSArr → Prop}
    (nil : motive JSArr.nil)
    (cons : ∀ v rest, motive rest → motive (JSArr.cons v rest)) :
    ∀ l, motive l
  | JSArr.nil => nil
  | JSArr.cons v rest => cons v rest (arrInduction nil cons rest)

theorem hasName_iff {l : List String} {k : String} :
    hasName l k = true ↔ k ∈ l := by
  induction l with
  | nil => simp [hasName]
  | cons x rest ih =>
      simp only [hasName, Bool.or_eq_true, decide_eq_true_eq, ih, List.mem_cons]
      exact or_congr eq_comm Iff.rfl

theorem getField_setField_self {ps : JSFields} {k : String} {v w : JSVal}
    (h : getField ps k = some w) : getField (setField ps k v) k = some v := by
  induction ps with
  | nil => simp [getField] at h
  | cons k0 v0 rest ih =>
      by_cases hk : k0 = k
      · simp [getField, setField, hk]
      · simp [getField, setField, hk] at h ⊢
        exact ih h

theorem getField_setField_ne {ps : JSFields} {k k' : String} {v : JSVal}
    (h : k' ≠ k) : getField (setField ps k v) k' = getField ps k' := by
  induction ps with
  | nil => simp [setField]
  | cons k0 v0 rest ih =>
      by_cases hk : k0 = k
      · simp [getField, setField, hk, Ne.symm h]
      · simp [getField, setField, hk]
        split <;> simp [ih]

theorem setField_self {ps : JSFields} {k : String} {v : JSVal}
    (h : getField ps k = some v) : setField ps k v = ps := by
  induction ps with
  | nil => simp [getField] at h
  | cons k0 v0 rest ih =>
      by_cases hk : k0 = k
      · subst hk
        simp [getField] at h
        simp [setField, h]
      · simp [getField, hk] at h
        simp [setField, hk, ih h]

theorem setField_setField {ps : JSFields} {k : String} {v w : JSVal} :
    setField (setField ps k v) k w = setField ps k w := by
  induction ps with
  | nil => simp [setField]
  | cons k0 v0 rest ih =>
      by_cases hk : k0 = k
      · subst hk; simp [setField]
      · simp [setField, hk, ih]

theorem keysF_setField {ps : JSFields} {k : String} {v : JSVal} :
    keysF (setField ps k v) = keysF ps := by
  induction ps with
  | nil => simp [setField]
  | cons k0 v0 rest ih =>
      by_cases hk : k0 = k
      · subst hk; simp [setField, keysF]
      · simp [setField, keysF, hk, ih]

theorem removeField_of_absent {fs : JSFields} {k : String}
    (h : getField fs k = none) : removeField fs k = fs := by
  induction fs with
  | nil => simp [removeField]
  | cons k0 v0 rest ih =>
      by_cases hk : k0 = k
      · subst hk; simp [getField] at h
      · simp [getField, hk] at h
        simp [removeField, hk, ih h]

theorem getField_removeField_ne {fs : JSFields} {k k' : String}
    (h : k' ≠ k) : getField (removeField fs k) k' = getField fs k' := by
  induction fs with
  | nil => simp [removeField]
  | cons k0 v0 rest ih =>
      by_cases hk : k0 = k
      · simp [getField, removeField, hk, Ne.symm h, ih]
      · simp [getField, removeField, hk]
        split <;> simp [ih]

theorem getField_removeField_self {fs : JSFields} {k : String} :
    getField (removeField fs k) k = none := by
  induction fs with
  | nil => simp [removeField, getField]
  | cons k0 v0 rest ih =>
      by_cases hk : k0 = k
      · subst hk; simp [removeField, ih]
      · simp [removeField, getField, hk, ih]

theorem removeField_appendField {fs : JSFields} {k : String} {v : JSVal} :
    removeField (appendField fs k v) k = removeField fs k := by
  induction fs with
  | nil => simp [appendField, removeField]
  | cons k0 v0 rest ih =>
      by_cases hk : k0 = k
      · subst hk; simp [appendField, removeField, ih]
      · simp [appendField, removeField, hk, ih]

theorem getField_some_hasName {ps : JSFields} {k : String} {v : JSVal}
    (h : getField ps k = some v) : hasName (keysF ps) k = true := by
  induction ps with
  | nil => simp [getField] at h
  | cons k0 v0 rest ih =>
      by_cases hk : k0 = k
      · subst hk; simp [keysF, hasName]
      · simp [getField, hk] at h
        simp [keysF, hasName, hk, ih h]

theorem getField_of_not_hasName {ps : JSFields} {k : String}
    (h : hasName (keysF ps) k = false) : getField ps k = none := by
  induction ps with
  | nil => simp [getField]
  | cons k0 v0 rest ih =>
      simp [keysF, hasName] at h
      simp [getField, h.1, ih h.2]

theorem mem_toListF_hasName {ps : JSFields} {k : String} {v : JSVal}
    (h : (k, v) ∈ toListF ps) : hasName (keysF ps) k = true := by
  induction ps with
  | nil => simp [toListF] at h
  | cons k0 v0 rest ih =>
      simp [toListF] at h
      rcases h with ⟨hk, _⟩ | h
      · simp [keysF, hasName, hk]
      · simp [keysF, hasName, ih h]

theorem getField_of_mem_distinct {ps : JSFields} {k : String} {v : JSVal}
    (hd : distinctKeys ps = true) (h : (k, v) ∈ toListF ps) :
    getField ps k = some v := by
  induction ps with
  | nil => simp [toListF] at h
  | cons k0 v0 rest ih =>
      simp [distinctKeys, keysF, distinctList] at hd
      simp [toListF] at h
      rcases h with ⟨hk, hv⟩ | h
      · simp [getField, hk, hv]
      · have hne : k0 ≠ k := by
          intro hc
          rw [hc] at hd
          rw [mem_toListF_hasName h] at hd
          exact absurd hd.1 (by simp)
        simp [getField, hne, ih hd.2 h]

theorem wfVal_of_mem {ps : JSFields} {k : String} {v : JSVal}
    (hw : wfFields ps = true) (h : (k, v) ∈ toListF ps) : wfVal v = true := by
  induction ps with
  | nil => simp [toListF] at h
  | cons k0 v0 rest ih =>
      simp [wfFields] at hw
      simp [toListF] at h
      rcases h with ⟨_, hv⟩ | h
      · subst hv; exact hw.1
      · exact ih hw.2 h

/-! ### Reflexivity of the deep comparison on well-formed values -/

mutual
theorem isEqual_refl : ∀ v : JSVal, wfVal v = true → isEqual v v = true
  | JSVal.str s, _ => by simp [isEqual]
  | JSVal.num n, _ => by simp [isEqual]
  | JSVal.boolean b, _ => by simp [isEqual]
  | JSVal.null, _ => by simp [isEqual]
  | JSVal.obj fs, h => by
      simp only [wfVal, Bool.and_eq_true] at h
      simp only [isEqual, Bool.and_eq_true, decide_eq_true_eq]
      exact ⟨trivial, isEqualFields_of_lookup fs fs (fun k v hm =>
        ⟨getField_of_mem_distinct h.1 hm, wfVal_of_mem h.2 hm⟩)⟩
  | JSVal.arr l, h => by
      simp only [wfVal] at h
      simp only [isEqual]
      exact isEqualArr_refl l h
  | JSVal.func s r, _ => by simp [isEqual]

theorem isEqualArr_refl : ∀ l : JSArr, wfArr l = true → isEqualArr l l = true
  | JSArr.nil, _ => by simp [isEqualArr]
  | JSArr.cons v rest, h => by
      simp only [wfArr, Bool.and_eq_true] at h
      simp [isEqualArr, isEqual_refl v h.1, isEqualArr_refl rest h.2]

theorem isEqualFields_of_lookup : ∀ a b : JSFields,
    (∀ k v, (k, v) ∈ toListF a → getField b k = some v ∧ wfVal v = true) →
    isEqualFields a b = true
  | JSFields.nil, _, _ => by simp [isEqualFields]
  | JSFields.cons k v rest, b, h => by
      have hk := h k v (by simp [toListF])
      simp [isEqualFields, hk.1, isEqual_refl v hk.2,
        isEqualFields_of_lookup rest b (fun k' v' hm => h k' v' (by simp [toListF, hm]))]
end

/-- Deep-comparison reflexivity for an object out of its parts. -/
theorem isEqual_obj_refl {a : JSFields} (h1 : distinctKeys a = true)
    (h2 : wfFields a = true) : isEqual (JSVal.obj a) (JSVal.obj a) = true :=
  isEqual_refl _ (by simp [wfVal, h1, h2])

/-! ### The callable/non-callable partition -/

theorem mem_functions_hasName {ps : JSFields} {fn : String}
    (h : fn ∈ functions ps) : hasName (keysF ps) fn = true := by
  induction ps with
  | nil => simp [functions] at h
  | cons k0 v0 rest ih =>
      by_cases hc : isCallable v0 = true
      · simp [functions, hc] at h
        rcases h with h | h
        · simp [keysF, hasName, h]
        · simp [keysF, hasName, ih h]
      · simp [functions, hc] at h
        simp [keysF, hasName, ih h]

theorem getField_of_mem_functions {ps : JSFields} {fn : String}
    (hd : distinctKeys ps = true) (h : fn ∈ functions ps) :
    ∃ s r, getField ps fn = some (JSVal.func s r) := by
  induction ps with
  | nil => simp [functions] at h
  | cons k0 v0 rest ih =>
      simp only [distinctKeys, keysF, distinctList, Bool.and_eq_true,
        Bool.not_eq_true'] at hd
      have hrest : fn ∈ functions rest →
          ∃ s r, getField (JSFields.cons k0 v0 rest) fn = some (JSVal.func s r) := by
        intro hm
        have hne : k0 ≠ fn := by
          intro hc
          rw [hc] at hd
          rw [mem_functions_hasName hm] at hd
          exact absurd hd.1 (by simp)
        obtain ⟨s, r, hg⟩ := ih hd.2 hm
        exact ⟨s, r, by simp [getField, hne, hg]⟩
      by_cases hc : isCallable v0 = true
      · simp only [functions, hc, if_pos] at h
        rcases List.mem_cons.mp h with rfl | hm
        · cases v0 with
          | func s r => exact ⟨s, r, by simp [getField]⟩
          | str s => simp [isCallable] at hc
          | num n => simp [isCallable] at hc
          | boolean b => simp [isCallable] at hc
          | null => simp [isCallable] at hc
          | obj fs => simp [isCallable] at hc
          | arr l => simp [isCallable] at hc
        · exact hrest hm
      · simp [functions, hc] at h
        exact hrest h

theorem hasName_omitF {ps : JSFields} {ks : List String} {k : String}
    (h : hasName (keysF (omitF ps ks)) k = true) :
    hasName (keysF ps) k = true := by
  induction ps with
  | nil => simpa [omitF] using h
  | cons k0 v0 rest ih =>
      by_cases hk : hasName ks k0 = true
      · simp only [omitF, hk, if_pos] at h
        simp [keysF, hasName, ih h]
      · simp only [omitF, hk, if_neg, Bool.false_eq_true, not_false_iff] at h
        simp only [keysF, hasName, Bool.or_eq_true, decide_eq_true_eq] at h ⊢
        rcases h with h | h
        · exact Or.inl h
        · exact Or.inr (ih h)

theorem distinctKeys_omitF {ps : JSFields} {ks : List String}
    (h : distinctKeys ps = true) : distinctKeys (omitF ps ks) = true := by
  induction ps with
  | nil => simp [omitF, h]
  | cons k0 v0 rest ih =>
      simp only [distinctKeys, keysF, distinctList, Bool.and_eq_true,
        Bool.not_eq_true'] at h
      by_cases hk : hasName ks k0 = true
      · simp only [omitF, hk, if_pos]
        exact ih h.2
      · simp only [omitF, hk, if_neg, Bool.false_eq_true, not_false_iff,
          distinctKeys, keysF, distinctList, Bool.and_eq_true, Bool.not_eq_true']
        refine ⟨?_, ih h.2⟩
        cases hh : hasName (keysF (omitF rest ks)) k0
        · rfl
        · rw [hasName_omitF hh] at h
          exact h.1

theorem wfFields_omitF {ps : JSFields} {ks : List String}
    (h : wfFields ps = true) : wfFields (omitF ps ks) = true := by
  induction ps with
  | nil => simp [omitF, h]
  | cons k0 v0 rest ih =>
      simp only [wfFields, Bool.and_eq_true] at h
      by_cases hk : hasName ks k0 = true
      · simp only [omitF, hk, if_pos]
        exact ih h.2
      · simp only [omitF, hk, if_neg, Bool.false_eq_true, not_false_iff,
          wfFields, Bool.and_eq_true]
        exact ⟨h.1, ih h.2⟩

theorem hasName_nonCallables {ps : JSFields} {k : String}
    (h : hasName (keysF (nonCallables ps)) k = true) :
    hasName (keysF ps) k = true := by
  induction ps with
  | nil => simpa [nonCallables] using h
  | cons k0 v0 rest ih =>
      by_cases hc : isCallable v0 = true
      · simp only [nonCallables, hc, if_pos] at h
        simp [keysF, hasName, ih h]
      · simp only [nonCallables, hc, if_neg, Bool.false_eq_true, not_false_iff] at h
        simp only [keysF, hasName, Bool.or_eq_true, decide_eq_true_eq] at h ⊢
        rcases h with h | h
        · exact Or.inl h
        · exact Or.inr (ih h)

theorem distinctKeys_nonCallables {ps : JSFields}
    (h : distinctKeys ps = true) : distinctKeys (nonCallables ps) = true := by
  induction ps with
  | nil => simp [nonCallables, h]
  | cons k0 v0 rest ih =>
      simp only [distinctKeys, keysF, distinctList, Bool.and_eq_true,
        Bool.not_eq_true'] at h
      by_cases hc : isCallable v0 = true
      · simp only [nonCallables, hc, if_pos]
        exact ih h.2
      · simp only [nonCallables, hc, if_neg, Bool.false_eq_true, not_false_iff,
          distinctKeys, keysF, distinctList, Bool.and_eq_true, Bool.not_eq_true']
        refine ⟨?_, ih h.2⟩
        cases hh : hasName (keysF (nonCallables rest)) k0
        · rfl
        · rw [hasName_nonCallables hh] at h
          exact h.1

theorem wfFields_nonCallables {ps : JSFields}
    (h : wfFields ps = true) : wfFields (nonCallables ps) = true := by
  induction ps with
  | nil => simp [nonCallables, h]
  | cons k0 v0 rest ih =>
      simp only [wfFields, Bool.and_eq_true] at h
      by_cases hc : isCallable v0 = true
      · simp only [nonCallables, hc, if_pos]
        exact ih h.2
      · simp only [nonCallables, hc, if_neg, Bool.false_eq_true, not_false_iff,
          wfFields, Bool.and_eq_true]
        exact ⟨h.1, ih h.2⟩

/-- Dropping a key that the object does not carry from the omit list
    changes nothing. -/
theorem omitF_extra {ps : JSFields} {k : String} {L : List String}
    (h : hasName (keysF ps) k = false) : omitF ps (k :: L) = omitF ps L := by
  induction ps with
  | nil => simp [omitF]
  | cons k0 v0 rest ih =>
      simp only [keysF, hasName, Bool.or_eq_false_iff, decide_eq_false_iff_not] at h
      have hne : ¬(k = k0) := fun hc => h.1 hc.symm
      have hk : hasName (k :: L) k0 = hasName L k0 := by
        simp [hasName, hne]
      simp only [omitF, hk, ih h.2]

theorem omitF_cons_mem {k0 : String} {v0 : JSVal} {rest : JSFields}
    {ks : List String} (h : hasName ks k0 = true) :
    omitF (JSFields.cons k0 v0 rest) ks = omitF rest ks := by
  simp [omitF, h]

theorem omitF_cons_notmem {k0 : String} {v0 : JSVal} {rest : JSFields}
    {ks : List String} (h : hasName ks k0 = false) :
    omitF (JSFields.cons k0 v0 rest) ks = JSFields.cons k0 v0 (omitF rest ks) := by
  simp [omitF, h]

/-- On an object with distinct keys, omitting the function-valued keys
    is exactly keeping the non-callable partition. -/
theorem omitF_functions_eq_nonCallables {ps : JSFields}
    (hd : distinctKeys ps = true) : omitF ps (functions ps) = nonCallables ps := by
  induction ps with
  | nil => simp [omitF, nonCallables]
  | cons k0 v0 rest ih =>
      simp only [distinctKeys, keysF, distinctList, Bool.and_eq_true,
        Bool.not_eq_true'] at hd
      by_cases hc : isCallable v0 = true
      · have h1 : functions (JSFields.cons k0 v0 rest) = k0 :: functions rest := by
          simp [functions, hc]
        rw [h1, omitF_cons_mem (by simp [hasName]), omitF_extra hd.1, ih hd.2]
        simp [nonCallables, hc]
      · have hmem : hasName (functions rest) k0 = false := by
          cases hh : hasName (functions rest) k0
          · rfl
          · rw [mem_functions_hasName (hasName_iff.mp hh)] at hd
            exact absurd hd.1 (by simp)
        have h1 : functions (JSFields.cons k0 v0 rest) = functions rest := by
          simp [functions, hc]
        rw [h1, omitF_cons_notmem hmem, ih hd.2]
        simp [nonCallables, hc]

/-- The spec-side callable-name list coincides with lodash `functions`. -/
theorem callableNames_eq_functions : ∀ ps : JSFields,
    callableNames ps = functions ps
  | JSFields.nil => rfl
  | JSFields.cons k v rest => by
      simp [callableNames, functions, callableNames_eq_functions rest]

/-- When both sides hold a function under every listed name, the
    `every` loop is the `all` of the spec-side textual comparison. -/
theorem everyToStringEq_eq_all {prev next : JSFields} : ∀ l : List String,
    (∀ fn ∈ l, ∃ s r, getField prev fn = some (JSVal.func s r)) →
    (∀ fn ∈ l, ∃ s r, getField next fn = some (JSVal.func s r)) →
    everyToStringEq prev next l = Except.ok (l.all (funcTextMatches prev next))
  | [], _, _ => by simp [everyToStringEq]
  | fn :: rest, hp, hn => by
      obtain ⟨s, r, hs⟩ := hp fn (by simp)
      obtain ⟨t, u, ht⟩ := hn fn (by simp)
      have ihrec := everyToStringEq_eq_all rest
        (fun f hf => hp f (by simp [hf])) (fun f hf => hn f (by simp [hf]))
      by_cases hst : s = t
      · simp [everyToStringEq, hs, ht, jsToStrMethod, jsStr, hst, ihrec,
          funcTextMatches]
      · simp [everyToStringEq, hs, ht, jsToStrMethod, jsStr, hst,
          funcTextMatches]

/-- The comparison body refines the spec-side AND: on props objects with
    distinct keys where `next` holds a function under every callable
    name of `prev`, the body returns exactly the claimed conjunction. -/
theorem gate_eq_claimed {p n : JSFields} (hdp : distinctKeys p = true)
    (hdn : distinctKeys n = true)
    (hfn : ∀ fn ∈ functions p, ∃ s r, getField n fn = some (JSVal.func s r)) :
    gateAfterDelete p n = Except.ok (renderGateClaimed p n) := by
  unfold gateAfterDelete renderGateClaimed
  rw [omitF_functions_eq_nonCallables hdp, omitF_functions_eq_nonCallables hdn,
    callableNames_eq_functions]
  by_cases heq :
      isEqual (JSVal.obj (nonCallables p)) (JSVal.obj (nonCallables n)) = true
  · rw [if_pos heq, heq]
    simp only [Bool.true_and]
    exact everyToStringEq_eq_all _
      (fun fn hf => getField_of_mem_functions hdp hf) hfn
  · have hfalse :
        isEqual (JSVal.obj (nonCallables p)) (JSVal.obj (nonCallables n)) = false := by
      revert heq
      cases isEqual (JSVal.obj (nonCallables p)) (JSVal.obj (nonCallables n)) <;> simp
    rw [if_neg heq, hfalse]
    simp

/-- A name bound to a function matches itself textually. -/
theorem funcTextMatches_self {ps : JSFields} {fn : String}
    (h : ∃ s r, getField ps fn = some (JSVal.func s r)) :
    funcTextMatches ps ps fn = true := by
  obtain ⟨s, r, hg⟩ := h
  simp [funcTextMatches, hg]

/-- On a well-formed props object the comparison body accepts the
    object against itself. -/
theorem gateAfterDelete_refl {P : JSFields} (h1 : distinctKeys P = true)
    (h2 : wfFields P = true) : gateAfterDelete P P = Except.ok true := by
  rw [gate_eq_claimed h1 h1 (fun fn hf => getField_of_mem_functions h1 hf)]
  unfold renderGateClaimed
  rw [isEqual_obj_refl (distinctKeys_nonCallables h1) (wfFields_nonCallables h2)]
  simp only [Bool.true_and, List.all_eq_true]
  have : ∀ fn ∈ callableNames P, funcTextMatches P P fn = true := by
    intro fn hf
    rw [callableNames_eq_functions] at hf
    exact funcTextMatches_self (getField_of_mem_functions h1 hf)
  simp only [List.all_eq_true.mpr this]

/-! ### The `delete prevProps.options.mapTypeId` step -/

theorem applyTypeTagDeletion_of_obj {prev : JSFields} {fs : JSFields}
    (h : getField prev "options" = some (JSVal.obj fs)) :
    applyTypeTagDeletion prev =
      setField prev "options" (JSVal.obj (removeField fs "mapTypeId")) := by
  unfold applyTypeTagDeletion
  rw [h]

/-- When `previous.options` carries no `mapTypeId`, the deletion leaves
    `previous` untouched. -/
theorem applyTypeTagDeletion_noop {prev : JSFields} {fs : JSFields}
    (h : getField prev "options" = some (JSVal.obj fs))
    (hm : getField fs "mapTypeId" = none) : applyTypeTagDeletion prev = prev := by
  rw [applyTypeTagDeletion_of_obj h, removeField_of_absent hm, setField_self h]

/-- The `delete` on a non-object, non-`null` `options` value acts on a
    temporary wrapper and leaves `prevProps` untouched. -/
theorem applyTypeTagDeletion_nonobj {prev : JSFields} {v : JSVal}
    (hg : getField prev "options" = some v) (hobj : ∀ fs, v ≠ JSVal.obj fs) :
    applyTypeTagDeletion prev = prev := by
  unfold applyTypeTagDeletion
  rw [hg]
  cases v with
  | obj fs => exact absurd rfl (hobj fs)
  | null => rfl
  | str s => rfl
  | num n => rfl
  | boolean b => rfl
  | arr l => rfl
  | func s r => rfl

theorem distinctKeys_applyTypeTagDeletion {prev : JSFields} :
    distinctKeys (applyTypeTagDeletion prev) = distinctKeys prev := by
  unfold applyTypeTagDeletion
  cases hg : getField prev "options" with
  | none => rfl
  | some v =>
      cases v with
      | obj fs => simp [distinctKeys, keysF_setField]
      | str s => rfl
      | num n => rfl
      | boolean b => rfl
      | null => rfl
      | arr l => rfl
      | func s r => rfl

/-- Reduction of `shouldUpdate` once the `delete` step is known not to
    throw: the deletion is applied to `prevProps` and the comparison
    body runs on the result. -/
theorem shouldUpdate_of_some {prev next : JSFields} {v : JSVal}
    (h : getField prev "options" = some v) (hv : v ≠ JSVal.null) :
    shouldUpdate prev next =
      (applyTypeTagDeletion prev,
       gateAfterDelete (applyTypeTagDeletion prev) next) := by
  unfold shouldUpdate
  rw [h]
  cases v with
  | null => exact absurd rfl hv
  | str s => rfl
  | num n => rfl
  | boolean b => rfl
  | obj fs => rfl
  | arr l => rfl
  | func s r => rfl

/-! ### The ModalBehind overlay (styled component) -/

/-- JavaScript truthiness of a property value, with an absent property
    (`undefined`) falsy. -/
def jsTruthy : Option JSVal → Bool
  | none => false
  | some (JSVal.str s) => !s.isEmpty
  | some (JSVal.num n) => n != 0
  | some (JSVal.boolean b) => b
  | some JSVal.null => false
  | some (JSVal.obj _) => true
  | some (JSVal.arr _) => true
  | some (JSVal.func _ _) => true

/-- `visibility: ${props => (props.open ? visible : hidden)}` from the
    `ModalBehind` styled component. -/
def modalBehindVisibility (props : JSFields) : String :=
  if jsTruthy (getField props "open") then "visible" else "hidden"

/-- `opacity: ${props => (props.open ? 1 : 0)}` from the `ModalBehind`
    styled component. -/
def modalBehindOpacity (props : JSFields) : String :=
  if jsTruthy (getField props "open") then "1" else "0"

/-! ### The Map component's mount effect (external-resource loader) -/

/-- What the `useEffect` body does on one mount. -/
inductive MountAction : Type where
  /-- `window.google` was present: `onLoad` (init) ran synchronously,
      no script was appended and no listener registered. -/
  | initInvoked : MountAction
  /-- `window.google` was absent: a script tag was created and
      appended and a `load` listener registered. -/
  | loadStarted : MountAction
deriving DecidableEq, Repr

/-- The page-global state the loader interacts with. -/
structure PageState : Type where
  /-- Whether `window.google` is set (it is set by the external script
      once it has loaded and executed). -/
  googlePresent : Bool
  /-- How many script tags have been appended to `document.head`. -/
  scriptCount : Nat
  /-- How many `load` listeners are currently registered. -/
  pendingListeners : Nat
deriving DecidableEq, Repr

/-- A fresh page: no external resource, no scripts, no listeners. -/
def initialPage : PageState :=
  { googlePresent := false, scriptCount := 0, pendingListeners := 0 }

/-- The `useEffect` body of the `Map` component:
    `if (!window.google) { create script; append; addEventListener }
    else onLoad()`. -/
def mountEffect (s : PageState) : PageState × MountAction :=
  if s.googlePresent then (s, MountAction.initInvoked)
  else ({ s with scriptCount := s.scriptCount + 1,
                 pendingListeners := s.pendingListeners + 1 },
        MountAction.loadStarted)

/-- The external script finishing: its execution sets `window.google`. -/
def completeLoad (s : PageState) : PageState :=
  { s with googlePresent := true }

/-- When each listed name is bound on both sides to functions with the
    same source text, the `every` loop succeeds. -/
theorem everyToStringEq_of_shared {prev next : JSFields} : ∀ l : List String,
    (∀ fn ∈ l, ∃ s r1 r2, getField prev fn = some (JSVal.func s r1)
        ∧ getField next fn = some (JSVal.func s r2)) →
    everyToStringEq prev next l = Except.ok true
  | [], _ => by simp [everyToStringEq]
  | fn :: rest, h => by
      obtain ⟨s, r1, r2, h1, h2⟩ := h fn (by simp)
      simp [everyToStringEq, h1, h2, jsToStrMethod, jsStr,
        everyToStringEq_of_shared rest (fun f hf => h f (by simp [hf]))]

/-! ## The claims -/

/-- Claim C1, the claimed biconditional refuted: a PropertySet pair on
    which the deep equality of the two non-callable partitions holds and
    the callable comparison is vacuously true (`renderGateClaimed` is
    `true`), yet the gate returns `false` — the gate deletes
    `options.mapTypeId` from `previous` only, so the fresh `next`
    snapshot still carries the field and the deep comparison fails. -/
theorem c1_claimed_biconditional_counterexample :
    renderGateClaimed
      (JSFields.cons "options"
        (JSVal.obj (JSFields.cons "mapTypeId" (JSVal.str "satellite") JSFields.nil))
        JSFields.nil)
      (JSFields.cons "options"
        (JSVal.obj (JSFields.cons "mapTypeId" (JSVal.str "satellite") JSFields.nil))
        JSFields.nil) = true
    ∧ (shouldUpdate
        (JSFields.cons "options"
          (JSVal.obj (JSFields.cons "mapTypeId" (JSVal.str "satellite") JSFields.nil))
          JSFields.nil)
        (JSFields.cons "options"
          (JSVal.obj (JSFields.cons "mapTypeId" (JSVal.str "satellite") JSFields.nil))
          JSFields.nil)).2 = Except.ok false :=
  ⟨rfl, rfl⟩

/-- Claim C1 (amended): provided `previous.options` is present and not
    `null`, both PropertySets have distinct keys, and `next` holds a
    function under every callable name of `previous` after the
    `mapTypeId` deletion, the gate returns the boolean that is the
    logical AND of (a) deep equality of the two non-callable partitions
    taken after that deletion and (b) textual equality of every callable
    of `previous` against `next`'s same-named function
    (`renderGateSpec`). -/
theorem c1_render_gate_eq_spec {prev next : JSFields} {v : JSVal}
    (hv : getField prev "options" = some v) (hvn : v ≠ JSVal.null)
    (hdp : distinctKeys prev = true) (hdn : distinctKeys next = true)
    (hfn : ∀ fn ∈ functions (applyTypeTagDeletion prev),
        ∃ s r, getField next fn = some (JSVal.func s r)) :
    (shouldUpdate prev next).2 = Except.ok (renderGateSpec prev next) := by
  rw [shouldUpdate_of_some hv hvn]
  show gateAfterDelete (applyTypeTagDeletion prev) next = _
  unfold renderGateSpec
  exact gate_eq_claimed
    (by rw [distinctKeys_applyTypeTagDeletion]; exact hdp) hdn hfn

/-- Input pair for the C1 witness: equal non-callable parts modulo the
    type tag in `previous.options`, and one callable of equal text. -/
def c1wPrev : JSFields :=
  JSFields.cons "options"
    (JSVal.obj (JSFields.cons "zoom" (JSVal.num 5)
      (JSFields.cons "mapTypeId" (JSVal.str "satellite") JSFields.nil)))
    (JSFields.cons "onMount" (JSVal.func "map => addMarkers(map)" 0) JSFields.nil)

/-- `next` side for the C1 witness. -/
def c1wNext : JSFields :=
  JSFields.cons "options"
    (JSVal.obj (JSFields.cons "zoom" (JSVal.num 5) JSFields.nil))
    (JSFields.cons "onMount" (JSVal.func "map => addMarkers(map)" 1) JSFields.nil)

/-- Witness for C1 (amended) at a concrete input. -/
theorem c1_witness : (shouldUpdate c1wPrev c1wNext).2 = Except.ok true := by
  show (shouldUpdate c1wPrev c1wNext).2 = Except.ok (renderGateSpec c1wPrev c1wNext)
  refine c1_render_gate_eq_spec rfl (by decide) (by decide) (by decide) ?_
  intro fn hf
  rw [show functions (applyTypeTagDeletion c1wPrev) = ["onMount"] from rfl,
    List.mem_singleton] at hf
  subst hf
  exact ⟨"map => addMarkers(map)", 1, rfl⟩

/-- Claim C2 refuted as universally stated: two distinct closures with
    identical source text under the same name, all other properties
    equal — yet the gate returns `false`, because the shared `options`
    object carries a `mapTypeId` field that is deleted from `previous`
    alone before the deep comparison. -/
theorem c2_callable_counterexample :
    (shouldUpdate
      (JSFields.cons "onMount" (JSVal.func "map => addMarkers(map)" 0)
        (JSFields.cons "options"
          (JSVal.obj (JSFields.cons "mapTypeId" (JSVal.str "hybrid") JSFields.nil))
          JSFields.nil))
      (JSFields.cons "onMount" (JSVal.func "map => addMarkers(map)" 1)
        (JSFields.cons "options"
          (JSVal.obj (JSFields.cons "mapTypeId" (JSVal.str "hybrid") JSFields.nil))
          JSFields.nil))).2 = Except.ok false :=
  rfl

/-- Claim C2 (amended): for two callable values under the same fresh
    name over a shared well-formed base whose `options` is an object
    without `mapTypeId`, the gate returns `true` exactly when the two
    source texts coincide — independently of the closure identities
    `r1`, `r2` (distinct closures over different captured values) and of
    any behavioural relation between the functions. -/
theorem c2_callable_text_decides {base fs : JSFields} {name s1 s2 : String}
    {r1 r2 : Nat}
    (hnb : hasName (keysF base) name = false)
    (hdb : distinctKeys base = true) (hwb : wfFields base = true)
    (ho : getField base "options" = some (JSVal.obj fs))
    (hm : getField fs "mapTypeId" = none) :
    (shouldUpdate (JSFields.cons name (JSVal.func s1 r1) base)
                  (JSFields.cons name (JSVal.func s2 r2) base)).2
      = Except.ok (decide (s1 = s2)) := by
  have hno : ¬(name = "options") := by
    intro hc
    rw [hc, getField_some_hasName ho] at hnb
    exact absurd hnb (by simp)
  have hv : getField (JSFields.cons name (JSVal.func s1 r1) base) "options"
      = some (JSVal.obj fs) := by
    simp [getField, hno, ho]
  rw [shouldUpdate_of_some hv (fun hc => JSVal.noConfusion hc)]
  show gateAfterDelete _ _ = _
  rw [applyTypeTagDeletion_noop hv hm]
  unfold gateAfterDelete
  have hfp : functions (JSFields.cons name (JSVal.func s1 r1) base)
      = name :: functions base := by simp [functions, isCallable]
  have hfq : functions (JSFields.cons name (JSVal.func s2 r2) base)
      = name :: functions base := by simp [functions, isCallable]
  have homit : ∀ v0 : JSVal,
      omitF (JSFields.cons name v0 base) (name :: functions base)
        = omitF base (functions base) := by
    intro v0
    rw [omitF_cons_mem (by simp [hasName]), omitF_extra hnb]
  rw [hfp, hfq, homit, homit,
    isEqual_obj_refl (distinctKeys_omitF hdb) (wfFields_omitF hwb), if_pos rfl]
  have hgp : getField (JSFields.cons name (JSVal.func s1 r1) base) name
      = some (JSVal.func s1 r1) := by simp [getField]
  have hgq : getField (JSFields.cons name (JSVal.func s2 r2) base) name
      = some (JSVal.func s2 r2) := by simp [getField]
  have htail : ∀ fn ∈ functions base, ∃ s u1 u2,
      getField (JSFields.cons name (JSVal.func s1 r1) base) fn
        = some (JSVal.func s u1)
      ∧ getField (JSFields.cons name (JSVal.func s2 r2) base) fn
        = some (JSVal.func s u2) := by
    intro fn hf
    have hne : ¬(name = fn) := by
      intro hc
      rw [hc, mem_functions_hasName hf] at hnb
      exact absurd hnb (by simp)
    obtain ⟨s, r, hg⟩ := getField_of_mem_functions hdb hf
    exact ⟨s, r, r, by simp [getField, hne, hg], by simp [getField, hne, hg]⟩
  have hstep : everyToStringEq (JSFields.cons name (JSVal.func s1 r1) base)
      (JSFields.cons name (JSVal.func s2 r2) base) (name :: functions base)
      = if s1 = s2 then
          everyToStringEq (JSFields.cons name (JSVal.func s1 r1) base)
            (JSFields.cons name (JSVal.func s2 r2) base) (functions base)
        else Except.ok false := by
    simp only [everyToStringEq, hgp, hgq, jsToStrMethod, jsStr]
  rw [hstep]
  by_cases hs : s1 = s2
  · rw [if_pos hs, everyToStringEq_of_shared _ htail]
    simp [hs]
  · rw [if_neg hs]
    simp [hs]

/-- Witness for C2 (amended): two distinct closures (identities 0 and 1,
    i.e. closures over different captured values) with the same source
    text make the gate return `true`. -/
theorem c2_witness :
    (shouldUpdate
      (JSFields.cons "onMount" (JSVal.func "map => addMarkers(map)" 0)
        (JSFields.cons "options" (JSVal.obj JSFields.nil) JSFields.nil))
      (JSFields.cons "onMount" (JSVal.func "map => addMarkers(map)" 1)
        (JSFields.cons "options" (JSVal.obj JSFields.nil) JSFields.nil))).2
      = Except.ok true := by
  show _ = Except.ok (decide ("map => addMarkers(map)" = "map => addMarkers(map)"))
  exact c2_callable_text_decides (by decide) (by decide) (by decide) rfl rfl

/-- Claim C3 refuted: a PropertySet whose `options` carries the provider
    type tag is not accepted against its own fresh copy — the deletion
    acts on `previous` only, so `RenderGate(P, P)` is `false`, not
    `true`. -/
theorem c3_reflexivity_counterexample :
    (shouldUpdate
      (JSFields.cons "options"
        (JSVal.obj (JSFields.cons "mapTypeId" (JSVal.str "roadmap") JSFields.nil))
        JSFields.nil)
      (JSFields.cons "options"
        (JSVal.obj (JSFields.cons "mapTypeId" (JSVal.str "roadmap") JSFields.nil))
        JSFields.nil)).2 = Except.ok false
    ∧ (Except.ok false : Except JSError Bool) ≠ Except.ok true :=
  ⟨rfl, fun hc => Bool.noConfusion (Except.ok.inj hc)⟩

/-- Claim C3 (amended): `RenderGate(P, P) = true` for every well-formed
    PropertySet `P` — callables included — whose `options` property is
    present and not `null` and, when it is an object, does not itself
    carry `mapTypeId`.  (Only the counterexample's region is excluded:
    an object-valued `options` carrying the tag makes the gate return
    `false` on fresh snapshots, and an absent or `null` `options` makes
    it throw; any other `options` value — a number, string, boolean,
    array or function — keeps reflexivity, the `delete` being a no-op on
    a temporary wrapper.) -/
theorem c3_render_gate_reflexive {P : JSFields} {v : JSVal}
    (h1 : wfProps P = true)
    (h2 : getField P "options" = some v) (h3 : v ≠ JSVal.null)
    (h4 : ∀ fs, v = JSVal.obj fs → getField fs "mapTypeId" = none) :
    (shouldUpdate P P).2 = Except.ok true := by
  have hd : distinctKeys P = true := by
    have := h1
    simp only [wfProps, Bool.and_eq_true] at this
    exact this.1
  have hw : wfFields P = true := by
    have := h1
    simp only [wfProps, Bool.and_eq_true] at this
    exact this.2
  rw [shouldUpdate_of_some h2 h3]
  show gateAfterDelete _ _ = _
  have hdel : applyTypeTagDeletion P = P := by
    cases v with
    | obj fs => exact applyTypeTagDeletion_noop h2 (h4 fs rfl)
    | null => exact absurd rfl h3
    | str s =>
        exact applyTypeTagDeletion_nonobj h2 (fun fs hc => JSVal.noConfusion hc)
    | num n =>
        exact applyTypeTagDeletion_nonobj h2 (fun fs hc => JSVal.noConfusion hc)
    | boolean b =>
        exact applyTypeTagDeletion_nonobj h2 (fun fs hc => JSVal.noConfusion hc)
    | arr l =>
        exact applyTypeTagDeletion_nonobj h2 (fun fs hc => JSVal.noConfusion hc)
    | func s r =>
        exact applyTypeTagDeletion_nonobj h2 (fun fs hc => JSVal.noConfusion hc)
  rw [hdel]
  exact gateAfterDelete_refl hd hw

/-- Witness for C3 (amended) at two concrete PropertySets: one with an
    object `options` (sans tag) and a callable, and one whose `options`
    is the primitive number `7`. -/
theorem c3_witness :
    (shouldUpdate
      (JSFields.cons "options"
        (JSVal.obj (JSFields.cons "zoom" (JSVal.num 5) JSFields.nil))
        (JSFields.cons "onMount" (JSVal.func "map => addMarkers(map)" 7)
          JSFields.nil))
      (JSFields.cons "options"
        (JSVal.obj (JSFields.cons "zoom" (JSVal.num 5) JSFields.nil))
        (JSFields.cons "onMount" (JSVal.func "map => addMarkers(map)" 7)
          JSFields.nil))).2 = Except.ok true
    ∧ (shouldUpdate (JSFields.cons "options" (JSVal.num 7) JSFields.nil)
        (JSFields.cons "options" (JSVal.num 7) JSFields.nil)).2
        = Except.ok true := by
  constructor
  · exact c3_render_gate_reflexive (by decide) rfl
      (fun hc => JSVal.noConfusion hc)
      (fun fs hc => by injection hc with h; rw [← h]; rfl)
  · exact c3_render_gate_reflexive (by decide) rfl
      (fun hc => JSVal.noConfusion hc)
      (fun fs hc => JSVal.noConfusion hc)

/-- Claim C4: the spec requires a callable present on one side only to
    yield `false` rather than an error; the code does neither.  With
    equal non-callable parts, a callable only in `previous` reaches
    `nextProps[fn].toString()` on an absent property and throws a
    `TypeError`, while a callable only in `next` is silently omitted and
    the gate returns `true`. -/
theorem c4_one_sided_callable_evaluates :
    (shouldUpdate
      (JSFields.cons "options" (JSVal.obj JSFields.nil)
        (JSFields.cons "onMount" (JSVal.func "map => addMarkers(map)" 0)
          JSFields.nil))
      (JSFields.cons "options" (JSVal.obj JSFields.nil) JSFields.nil)).2
      = Except.error JSError.typeError
    ∧ (shouldUpdate
        (JSFields.cons "options" (JSVal.obj JSFields.nil) JSFields.nil)
        (JSFields.cons "options" (JSVal.obj JSFields.nil)
          (JSFields.cons "onMount" (JSVal.func "map => addMarkers(map)" 0)
            JSFields.nil))).2
      = Except.ok true :=
  ⟨rfl, rfl⟩

/-- Claim C5: under normal use — `previous.options` present and not
    `null`, `previous` with distinct keys (a real props object), and
    `next` holding a function under every callable name of `previous`
    (same conceptual shape) — the gate never throws: it returns a
    boolean. -/
theorem c5_render_gate_total {prev next : JSFields} {v : JSVal}
    (hv : getField prev "options" = some v) (hvn : v ≠ JSVal.null)
    (hdp : distinctKeys prev = true)
    (hfn : ∀ fn ∈ functions (applyTypeTagDeletion prev),
        ∃ s r, getField next fn = some (JSVal.func s r)) :
    ∃ b : Bool, (shouldUpdate prev next).2 = Except.ok b := by
  rw [shouldUpdate_of_some hv hvn]
  show ∃ b, gateAfterDelete (applyTypeTagDeletion prev) next = Except.ok b
  unfold gateAfterDelete
  by_cases hcond :
      isEqual
        (JSVal.obj (omitF (applyTypeTagDeletion prev)
          (functions (applyTypeTagDeletion prev))))
        (JSVal.obj (omitF next (functions next))) = true
  · rw [if_pos hcond]
    have hdd : distinctKeys (applyTypeTagDeletion prev) = true := by
      rw [distinctKeys_applyTypeTagDeletion]
      exact hdp
    exact ⟨_, everyToStringEq_eq_all _
      (fun fn hf => getField_of_mem_functions hdd hf) hfn⟩
  · rw [if_neg hcond]
    exact ⟨false, rfl⟩

/-- `previous` side for the C5 witness. -/
def c5wPrev : JSFields :=
  JSFields.cons "options" (JSVal.obj (JSFields.cons "zoom" (JSVal.num 5) JSFields.nil))
    (JSFields.cons "onMount" (JSVal.func "map => addMarkers(map)" 0) JSFields.nil)

/-- `next` side for the C5 witness (different callable text: the gate
    returns a boolean, namely `false`, without throwing). -/
def c5wNext : JSFields :=
  JSFields.cons "options" (JSVal.obj (JSFields.cons "zoom" (JSVal.num 5) JSFields.nil))
    (JSFields.cons "onMount" (JSVal.func "map => addLinks(map)" 1) JSFields.nil)

/-- Witness for C5 at a concrete input. -/
theorem c5_witness : ∃ b : Bool, (shouldUpdate c5wPrev c5wNext).2 = Except.ok b := by
  refine c5_render_gate_total rfl (fun hc => JSVal.noConfusion hc) (by decide) ?_
  intro fn hf
  rw [show functions (applyTypeTagDeletion c5wPrev) = ["onMount"] from rfl,
    List.mem_singleton] at hf
  subst hf
  exact ⟨"map => addLinks(map)", 1, rfl⟩

/-- Claim C6 refuted: when `next.options` itself carries the type tag
    (the caller passes `mapTypeId` explicitly) and the provider has
    mutated the tag in `previous.options` while every other property
    value is unchanged, the gate returns `false`, not `true` — the
    field is deleted from `previous` only, not excluded from the
    comparison. -/
theorem c6_type_tag_counterexample :
    (shouldUpdate
      (JSFields.cons "options"
        (JSVal.obj (JSFields.cons "mapTypeId" (JSVal.str "satellite")
          (JSFields.cons "zoom" (JSVal.num 5) JSFields.nil)))
        JSFields.nil)
      (JSFields.cons "options"
        (JSVal.obj (JSFields.cons "mapTypeId" (JSVal.str "roadmap")
          (JSFields.cons "zoom" (JSVal.num 5) JSFields.nil)))
        JSFields.nil)).2 = Except.ok false :=
  rfl

/-- Claim C6 (amended): when the provider writes `mapTypeId` into
    `previous.options` (a field the `next` snapshot's options does not
    itself carry) and every other property is unchanged, the gate still
    returns `true`: the tag is deleted from `previous` before the
    comparison. -/
theorem c6_type_tag_excluded {next fs : JSFields} {tag : JSVal}
    (hd : distinctKeys next = true) (hw : wfFields next = true)
    (ho : getField next "options" = some (JSVal.obj fs))
    (hm : getField fs "mapTypeId" = none) :
    (shouldUpdate
      (setField next "options" (JSVal.obj (appendField fs "mapTypeId" tag)))
      next).2 = Except.ok true := by
  have hv : getField
      (setField next "options" (JSVal.obj (appendField fs "mapTypeId" tag)))
      "options" = some (JSVal.obj (appendField fs "mapTypeId" tag)) :=
    getField_setField_self ho
  rw [shouldUpdate_of_some hv (fun hc => JSVal.noConfusion hc)]
  show gateAfterDelete _ next = _
  have hdel : applyTypeTagDeletion
      (setField next "options" (JSVal.obj (appendField fs "mapTypeId" tag)))
      = next := by
    rw [applyTypeTagDeletion_of_obj hv, removeField_appendField,
      removeField_of_absent hm, setField_setField, setField_self ho]
  rw [hdel]
  exact gateAfterDelete_refl hd hw

/-- Witness for C6 (amended) at a concrete input: the provider stored
    `mapTypeId: "roadmap"` into the previous snapshot's options. -/
theorem c6_witness :
    (shouldUpdate
      (setField
        (JSFields.cons "options"
          (JSVal.obj (JSFields.cons "zoom" (JSVal.num 4) JSFields.nil))
          JSFields.nil)
        "options"
        (JSVal.obj (appendField (JSFields.cons "zoom" (JSVal.num 4) JSFields.nil)
          "mapTypeId" (JSVal.str "roadmap"))))
      (JSFields.cons "options"
        (JSVal.obj (JSFields.cons "zoom" (JSVal.num 4) JSFields.nil))
        JSFields.nil)).2 = Except.ok true :=
  c6_type_tag_excluded (by decide) (by decide) rfl rfl

/-- When the `delete` throws on an absent `options`, `prevProps` is
    untouched (the throw happens before any mutation). -/
theorem shouldUpdate_fst_of_none {prev next : JSFields}
    (hg : getField prev "options" = none) : (shouldUpdate prev next).1 = prev := by
  unfold shouldUpdate
  rw [hg]

/-- Likewise for a `null`-valued `options`. -/
theorem shouldUpdate_fst_of_null {prev next : JSFields}
    (hg : getField prev "options" = some JSVal.null) :
    (shouldUpdate prev next).1 = prev := by
  unfold shouldUpdate
  rw [hg]

/-- In the non-throwing case, the state of `prevProps` after the call is
    exactly the deletion applied. -/
theorem shouldUpdate_fst {prev next : JSFields} {v : JSVal}
    (hg : getField prev "options" = some v) (hv : v ≠ JSVal.null) :
    (shouldUpdate prev next).1 = applyTypeTagDeletion prev := by
  rw [shouldUpdate_of_some hg hv]

/-- Claim C7: the gate's only effect on its inputs is the in-place
    deletion of `options.mapTypeId` from the `previous` snapshot.  In
    this embedding `nextProps` is passed immutably (the source has no
    other mutation to thread), and for `prevProps` the post-call state
    satisfies: every property other than `options` is unchanged; when
    `options` was an object, it lost exactly its `mapTypeId` field and
    nothing else; when `options` was present but not an object, and when
    it was absent (the throwing case, which aborts before mutating),
    `prevProps` is unchanged. -/
theorem c7_mutation_frame (prev next : JSFields) :
    (∀ k, k ≠ "options" →
        getField (shouldUpdate prev next).1 k = getField prev k)
    ∧ (∀ fs, getField prev "options" = some (JSVal.obj fs) →
        getField (shouldUpdate prev next).1 "options"
            = some (JSVal.obj (removeField fs "mapTypeId"))
        ∧ ∀ k, k ≠ "mapTypeId" →
            getField (removeField fs "mapTypeId") k = getField fs k)
    ∧ (∀ v, getField prev "options" = some v → (∀ fs, v ≠ JSVal.obj fs) →
        (shouldUpdate prev next).1 = prev)
    ∧ (getField prev "options" = none → (shouldUpdate prev next).1 = prev) := by
  refine ⟨?_, ?_, ?_, ?_⟩
  · intro k hk
    cases hg : getField prev "options" with
    | none => rw [shouldUpdate_fst_of_none hg]
    | some v =>
        by_cases hv : v = JSVal.null
        · rw [hv] at hg
          rw [shouldUpdate_fst_of_null hg]
        · rw [shouldUpdate_fst hg hv]
          cases v with
          | null => exact absurd rfl hv
          | obj fs =>
              rw [applyTypeTagDeletion_of_obj hg,
                getField_setField_ne hk]
          | str s =>
              rw [applyTypeTagDeletion_nonobj hg (fun fs hc => JSVal.noConfusion hc)]
          | num n =>
              rw [applyTypeTagDeletion_nonobj hg (fun fs hc => JSVal.noConfusion hc)]
          | boolean b =>
              rw [applyTypeTagDeletion_nonobj hg (fun fs hc => JSVal.noConfusion hc)]
          | arr l =>
              rw [applyTypeTagDeletion_nonobj hg (fun fs hc => JSVal.noConfusion hc)]
          | func s r =>
              rw [applyTypeTagDeletion_nonobj hg (fun fs hc => JSVal.noConfusion hc)]
  · intro fs hfs
    refine ⟨?_, fun k hk => getField_removeField_ne hk⟩
    rw [shouldUpdate_fst hfs (fun hc => JSVal.noConfusion hc),
      applyTypeTagDeletion_of_obj hfs]
    exact getField_setField_self hfs
  · intro v hv hobj
    cases v with
    | null => rw [shouldUpdate_fst_of_null hv]
    | obj fs => exact absurd rfl (hobj fs)
    | str s =>
        rw [shouldUpdate_fst hv (fun hc => JSVal.noConfusion hc),
          applyTypeTagDeletion_nonobj hv hobj]
    | num n =>
        rw [shouldUpdate_fst hv (fun hc => JSVal.noConfusion hc),
          applyTypeTagDeletion_nonobj hv hobj]
    | boolean b =>
        rw [shouldUpdate_fst hv (fun hc => JSVal.noConfusion hc),
          applyTypeTagDeletion_nonobj hv hobj]
    | arr l =>
        rw [shouldUpdate_fst hv (fun hc => JSVal.noConfusion hc),
          applyTypeTagDeletion_nonobj hv hobj]
    | func s r =>
        rw [shouldUpdate_fst hv (fun hc => JSVal.noConfusion hc),
          applyTypeTagDeletion_nonobj hv hobj]
  · intro hg
    rw [shouldUpdate_fst_of_none hg]

/-- `previous` side for the C7 witness. -/
def c7wPrev : JSFields :=
  JSFields.cons "center" (JSVal.num 1)
    (JSFields.cons "options"
      (JSVal.obj (JSFields.cons "mapTypeId" (JSVal.str "terrain")
        (JSFields.cons "zoom" (JSVal.num 7) JSFields.nil)))
      JSFields.nil)

/-- Witness for C7 at a concrete input: after the call, `center` is
    unchanged and `options` lost exactly its `mapTypeId` field. -/
theorem c7_witness :
    getField (shouldUpdate c7wPrev JSFields.nil).1 "center"
        = getField c7wPrev "center"
    ∧ getField (shouldUpdate c7wPrev JSFields.nil).1 "options"
        = some (JSVal.obj (removeField
            (JSFields.cons "mapTypeId" (JSVal.str "terrain")
              (JSFields.cons "zoom" (JSVal.num 7) JSFields.nil)) "mapTypeId"))
    ∧ getField (removeField
        (JSFields.cons "mapTypeId" (JSVal.str "terrain")
          (JSFields.cons "zoom" (JSVal.num 7) JSFields.nil)) "mapTypeId") "zoom"
        = some (JSVal.num 7) := by
  obtain ⟨h1, h2, _, _⟩ := c7_mutation_frame c7wPrev JSFields.nil
  obtain ⟨h2a, h2b⟩ := h2 _ rfl
  refine ⟨h1 "center" (by decide), h2a, ?_⟩
  rw [h2b "zoom" (by decide)]
  rfl

/-- Claim C8 refuted: two mounts from a fresh page, both before the
    external script's load completes, append two script tags — the
    `window.google` guard only suppresses loads after the script has
    executed, so the load routine is not run at most once per page
    lifetime. -/
theorem c8_loader_counterexample :
    ((mountEffect (mountEffect initialPage).1).1).scriptCount = 2
    ∧ ¬((mountEffect (mountEffect initialPage).1).1).scriptCount ≤ 1 := by
  refine ⟨rfl, ?_⟩
  decide

/-- Claim C8 (amended): when the resource is already present on mount,
    the init path runs synchronously with no state change (no script, no
    listener); when it is absent, each mount appends one script and
    registers one listener; in particular a mount after a completed load
    runs init immediately with no second load, while a second mount
    before completion performs a second load. -/
theorem c8_loader_behavior (s : PageState) :
    (s.googlePresent = true → mountEffect s = (s, MountAction.initInvoked))
    ∧ (s.googlePresent = false →
        (mountEffect s).1.scriptCount = s.scriptCount + 1
        ∧ (mountEffect s).1.pendingListeners = s.pendingListeners + 1
        ∧ (mountEffect s).2 = MountAction.loadStarted)
    ∧ mountEffect (completeLoad s) = (completeLoad s, MountAction.initInvoked) := by
  refine ⟨?_, ?_, ?_⟩
  · intro h
    simp [mountEffect, h]
  · intro h
    simp [mountEffect, h]
  · simp [mountEffect, completeLoad]

/-- Witness for C8 (amended): from a fresh page, a mount after the load
    completed is a pure synchronous init, and a mount before any load
    appends one script. -/
theorem c8_witness :
    mountEffect (completeLoad initialPage)
        = (completeLoad initialPage, MountAction.initInvoked)
    ∧ (mountEffect initialPage).1.scriptCount = 1 := by
  obtain ⟨_, h2, h3⟩ := c8_loader_behavior initialPage
  refine ⟨h3, ?_⟩
  rw [(h2 rfl).1]
  rfl

/-- Claim C9: the overlay's visibility and opacity are a pure function
    of the `open` property: truthy `open` gives `visible`/`1`, falsy
    `open` (including an absent property) gives `hidden`/`0`. -/
theorem c9_overlay_visibility (props : JSFields) :
    (jsTruthy (getField props "open") = true →
      modalBehindVisibility props = "visible" ∧ modalBehindOpacity props = "1")
    ∧ (jsTruthy (getField props "open") = false →
      modalBehindVisibility props = "hidden" ∧ modalBehindOpacity props = "0") := by
  constructor <;> intro h <;>
    simp [modalBehindVisibility, modalBehindOpacity, h]

/-- Witness for C9 at concrete props: `open: true` shows the overlay,
    and props without `open` hide it. -/
theorem c9_witness :
    modalBehindVisibility
        (JSFields.cons "open" (JSVal.boolean true) JSFields.nil) = "visible"
    ∧ modalBehindOpacity
        (JSFields.cons "open" (JSVal.boolean true) JSFields.nil) = "1"
    ∧ modalBehindVisibility JSFields.nil = "hidden"
    ∧ modalBehindOpacity JSFields.nil = "0" := by
  obtain ⟨h1, _⟩ :=
    c9_overlay_visibility (JSFields.cons "open" (JSVal.boolean true) JSFields.nil)
  obtain ⟨_, h2⟩ := c9_overlay_visibility JSFields.nil
  obtain ⟨ha, hb⟩ := h1 rfl
  obtain ⟨hc, hd⟩ := h2 rfl
  exact ⟨ha, hb, hc, hd⟩

/-- Claim C10 refuted: a `previous` whose `options` is the number `5` —
    present but not an object — does not make the gate throw: the
    `delete` acts on a temporary wrapper (no `TypeError` in JavaScript
    for a primitive base other than `undefined`/`null`), and the gate
    returns a boolean. -/
theorem c10_nonobject_options_counterexample :
    (shouldUpdate (JSFields.cons "options" (JSVal.num 5) JSFields.nil)
                  (JSFields.cons "options" (JSVal.num 5) JSFields.nil)).2
      = Except.ok true :=
  rfl

/-- Claim C10 (amended): the gate dereferences `previous.options`
    unconditionally, and the deletion step throws a `TypeError` exactly
    for the two values `ToObject` rejects: when `options` is absent
    (`undefined`) or `null`.  So `previous` carrying a non-`null`
    `options` is the gate's precondition for the delete step. -/
theorem c10_delete_throws {prev next : JSFields}
    (h : getField prev "options" = none
        ∨ getField prev "options" = some JSVal.null) :
    (shouldUpdate prev next).2 = Except.error JSError.typeError := by
  rcases h with h | h
  · unfold shouldUpdate
    rw [h]
  · unfold shouldUpdate
    rw [h]

/-- Witness for C10 (amended): empty props (no `options` at all) make
    the gate throw. -/
theorem c10_witness :
    (shouldUpdate JSFields.nil JSFields.nil).2 = Except.error JSError.typeError :=
  c10_delete_throws (Or.inl rfl)

end Blog
